import Mathlib

/-!
Verification of the hook registry and dispatch engine (`lib/hooks.js`).

The JavaScript module keeps a static catalog of lifecycle hook types
(`hookTypes`), a per-host hook store (`host.options.hooks`, an object
mapping hook-type names to ordered lists of entries), and operations
`addHook`, `removeHook`, `hasHook`, `runHooks` and `_setupHooks`.

The embedding below mirrors the source:
  * callbacks are abstract values of a type `F` (compared by identity,
    modelled as decidable equality);
  * a hook entry is either a bare callback or a named `{name, fn}` object;
  * the store is an association list keyed by hook-type name, with
    JavaScript object-assignment semantics (`storeSet` replaces in place
    or appends);
  * operations that can throw return the host paired with an optional
    error, so that "the store is unchanged by a failed call" is directly
    statable;
  * hook execution is abstracted by a function
    `exec : Host F → F → List α → Except ε Unit` standing for
    `hook.apply(this, hookArgs)` — its result is the success/failure
    signal of the hook, and `runHooks` records the ordered trace of
    callbacks actually invoked.
-/

/-- A catalog descriptor, one per known hook type (the `hookTypes` table).
`params` is the expected argument count, `sync`/`noModel` default to
false when the source omits them, `proxies` is present only for the
alias ("proxy") hook types. -/
structure HookDescriptor where
  params : Nat
  sync : Bool := false
  noModel : Bool := false
  proxies : Option (List String) := none
deriving DecidableEq

/-- The static `hookTypes` catalog, transcribed entry by entry from the
source. -/
def hookTypes : List (String × HookDescriptor) := [
  ("beforeValidate", { params := 2 }),
  ("afterValidate", { params := 2 }),
  ("validationFailed", { params := 3 }),
  ("beforeCreate", { params := 2 }),
  ("afterCreate", { params := 2 }),
  ("beforeDestroy", { params := 2 }),
  ("afterDestroy", { params := 2 }),
  ("beforeRestore", { params := 2 }),
  ("afterRestore", { params := 2 }),
  ("beforeUpdate", { params := 2 }),
  ("afterUpdate", { params := 2 }),
  ("beforeSave", { params := 2, proxies := some ["beforeUpdate", "beforeCreate"] }),
  ("afterSave", { params := 2, proxies := some ["afterUpdate", "afterCreate"] }),
  ("beforeUpsert", { params := 2 }),
  ("afterUpsert", { params := 2 }),
  ("beforeBulkCreate", { params := 2 }),
  ("afterBulkCreate", { params := 2 }),
  ("beforeBulkDestroy", { params := 1 }),
  ("afterBulkDestroy", { params := 1 }),
  ("beforeBulkRestore", { params := 1 }),
  ("afterBulkRestore", { params := 1 }),
  ("beforeBulkUpdate", { params := 1 }),
  ("afterBulkUpdate", { params := 1 }),
  ("beforeFind", { params := 1 }),
  ("beforeFindAfterExpandIncludeAll", { params := 1 }),
  ("beforeFindAfterOptions", { params := 1 }),
  ("afterFind", { params := 2 }),
  ("beforeCount", { params := 1 }),
  ("beforeDefine", { params := 2, sync := true, noModel := true }),
  ("afterDefine", { params := 1, sync := true, noModel := true }),
  ("beforeInit", { params := 2, sync := true, noModel := true }),
  ("afterInit", { params := 1, sync := true, noModel := true }),
  ("beforeAssociate", { params := 2, sync := true }),
  ("afterAssociate", { params := 2, sync := true }),
  ("beforeConnect", { params := 1, noModel := true }),
  ("afterConnect", { params := 2, noModel := true }),
  ("beforeSync", { params := 1 }),
  ("afterSync", { params := 1 }),
  ("beforeBulkSync", { params := 1, noModel := true }),
  ("afterBulkSync", { params := 1, noModel := true })]

/-- `hookTypes[hookType]`: property lookup on the catalog object. -/
def lookupHookType (t : String) : Option HookDescriptor :=
  (hookTypes.find? (fun p => p.1 == t)).map (fun p => p.2)

/-- `getProxiedHooks`: `hookTypes[hookType].proxies ? proxies.concat(hookType)
: [hookType]`.  For a hook type absent from the catalog the property access
`hookTypes[hookType].proxies` throws a `TypeError` (reading `proxies` of
`undefined`), modelled as `none`. -/
def getProxiedHooks (t : String) : Option (List String) :=
  match lookupHookType t with
  | none => none
  | some d =>
    match d.proxies with
    | some ps => some (ps ++ [t])
    | none => some [t]

/-- A hook entry: the registration stores either the bare callback
function or an object `{name, fn}` (only when a truthy name was given). -/
inductive HookEntry (F : Type) where
  | bare (fn : F)
  | named (name : String) (fn : F)
deriving DecidableEq

/-- `hook.fn` unwrapping used by both dispatch loops: an object entry is
replaced by its `fn` member, a bare function is used as-is. -/
def unwrapEntry {F : Type} : HookEntry F → F
  | .bare fn => fn
  | .named _ fn => fn

/-- The per-host hook store `options.hooks`: a JavaScript object mapping
hook-type names to ordered entry lists, modelled as an association list. -/
def HookStore (F : Type) : Type := List (String × List (HookEntry F))

instance {F : Type} [DecidableEq F] : DecidableEq (HookStore F) := by
  unfold HookStore; infer_instance

/-- Property read `store[t]` (no default). -/
def storeLookup {F : Type} (s : HookStore F) (t : String) :
    Option (List (HookEntry F)) :=
  match s with
  | [] => none
  | p :: rest => if p.1 = t then some p.2 else storeLookup rest t

/-- `(store[t]) || []`: the read used by `getHooks`. -/
def storeGet {F : Type} (s : HookStore F) (t : String) : List (HookEntry F) :=
  (storeLookup s t).getD []

/-- Property write `store[t] = l`: replaces the binding in place when the
key is present, otherwise appends it (JavaScript object assignment). -/
def storeSet {F : Type} (s : HookStore F) (t : String)
    (l : List (HookEntry F)) : HookStore F :=
  match s with
  | [] => [(t, l)]
  | p :: rest => if p.1 = t then (t, l) :: rest else p :: storeSet rest t l

/-- A host: owns its `options.hooks` store and, when it is a model (a
record-scoped host), carries `this.sequelize`, the parent whose own store
is consulted at dispatch and whose presence triggers the `noModel`
restriction.  `parentHooks` is the `options.hooks` store of the parent. -/
structure Host (F : Type) where
  hooks : HookStore F
  parentHooks : Option (HookStore F)
deriving DecidableEq

/-- `getHooks(hooked, hookType)`: `(hooked.options.hooks || {})[hookType] || []`. -/
def getHooks {F : Type} (s : HookStore F) (t : String) : List (HookEntry F) :=
  storeGet s t

/-- `hasHook(hookType)`:
`this.options.hooks[hookType] && !!this.options.hooks[hookType].length`. -/
def hasHook {F : Type} (host : Host F) (t : String) : Bool :=
  match storeLookup host.hooks t with
  | some l => !l.isEmpty
  | none => false

/-- Errors thrown by the registration and dispatch operations. -/
inductive HookError where
  /-- The thrown `Error` saying the hook type is only applicable on a
  sequelize instance or static. -/
  | restriction (hookType : String)
  /-- The implicit `TypeError` raised when `getProxiedHooks` or
  `removeHook` dereferences an undefined store/catalog member. -/
  | typeError
deriving DecidableEq

/-- `hookTypes[hookType] && hookTypes[hookType].noModel`: truthiness of
the restriction guard in `addHook`. -/
def isNoModelType (t : String) : Bool :=
  match lookupHookType t with
  | some d => d.noModel
  | none => false

/-- `hookTypes[hookType] && hookTypes[hookType].sync`: the synchronous
fast-path test in `runHooks` (false for unknown types). -/
def isSyncType (t : String) : Bool :=
  match lookupHookType t with
  | some d => d.sync
  | none => false

/-- The entry pushed by `addHook`: `hooks.push(name ? { name, fn } : fn)`
(an empty-string name is falsy, hence a bare entry). -/
def mkEntry {F : Type} (name : Option String) (fn : F) : HookEntry F :=
  match name with
  | some n => if n = "" then .bare fn else .named n fn
  | none => .bare fn

/-- The registration loop of `addHook`: for each resolved type, read the
list (default empty), push the entry, and write the list back. -/
def addAll {F : Type} (ts : List String) (e : HookEntry F)
    (s : HookStore F) : HookStore F :=
  ts.foldl (fun s t => storeSet s t (storeGet s t ++ [e])) s

/-- `addHook(hookType, name, fn)`.  Throwing is modelled by returning the
untouched host together with the error: the source throws before any
store mutation. -/
def addHook {F : Type} (host : Host F) (hookType : String)
    (name : Option String) (fn : F) : Host F × Option HookError :=
  if isNoModelType hookType && host.parentHooks.isSome then
    (host, some (.restriction hookType))
  else
    match getProxiedHooks hookType with
    | none => (host, some .typeError)
    | some ts =>
      ({ host with hooks := addAll ts (mkEntry name fn) host.hooks }, none)

/-- The removal key: `removeHook` receives either a hook name or a
function reference (`isReference`, true when the key is a function). -/
inductive RemoveKey (F : Type) where
  | byName (n : String)
  | byFn (fn : F)

/-- The filter predicate of `removeHook` (true = keep the entry):
a function key removes only bare entries identical to it, a name key
removes only `{name, fn}` entries whose name equals it; every
kind-mismatched entry is kept. -/
def keepEntry {F : Type} [DecidableEq F] (key : RemoveKey F) :
    HookEntry F → Bool
  | .bare fn =>
    match key with
    | .byFn k => !decide (fn = k)
    | .byName _ => true
  | .named n _ =>
    match key with
    | .byFn _ => true
    | .byName k => !decide (n = k)

/-- The removal loop of `removeHook`:
`this.options.hooks[type] = this.options.hooks[type].filter(...)` for each
resolved type.  A missing list makes `undefined.filter` throw, modelled as
an early exit carrying the store mutated so far. -/
def removeAllGo {F : Type} [DecidableEq F] (key : RemoveKey F) :
    List String → HookStore F → HookStore F × Option HookError
  | [], s => (s, none)
  | t :: ts, s =>
    match storeLookup s t with
    | none => (s, some .typeError)
    | some l => removeAllGo key ts (storeSet s t (l.filter (keepEntry key)))

/-- `removeHook(hookType, name)`: no-op when `hasHook` is false, otherwise
filters the list of every resolved (proxied) type. -/
def removeHook {F : Type} [DecidableEq F] (host : Host F) (hookType : String)
    (key : RemoveKey F) : Host F × Option HookError :=
  if !hasHook host hookType then (host, none)
  else
    match getProxiedHooks hookType with
    | none => (host, some .typeError)
    | some ts =>
      let r := removeAllGo key ts host.hooks
      ({ host with hooks := r.1 }, r.2)

/-- The `hooks` argument of `runHooks`: nothing at all (the falsy check
`if (!hooks) throw ...`), a hook-type name, an explicit array used
verbatim, or a single hook wrapped into an array. -/
inductive RunArg (F : Type) where
  | noArg
  | typ (t : String)
  | list (l : List (HookEntry F))
  | single (e : HookEntry F)

/-- Outcome of a `runHooks` call: the `InvalidArgument` throw, or the
failure of one of the hooks (a synchronous throw or an asynchronous
rejection, both surfaced to the caller). -/
inductive RunError (ε : Type) where
  | invalidArgument
  | hookFail (e : ε)
deriving DecidableEq

instance {ε α : Type} [DecidableEq ε] [DecidableEq α] :
    DecidableEq (Except ε α) := fun a b =>
  match a, b with
  | .ok x, .ok y =>
    if h : x = y then .isTrue (by rw [h])
    else .isFalse (fun hc => h (by injection hc))
  | .ok _, .error _ => .isFalse (fun hc => Except.noConfusion hc)
  | .error _, .ok _ => .isFalse (fun hc => Except.noConfusion hc)
  | .error x, .error y =>
    if h : x = y then .isTrue (by rw [h])
    else .isFalse (fun hc => h (by injection hc))

/-- The observable behaviour of one `runHooks` dispatch: whether the
synchronous fast path was taken, the callbacks invoked in order, and the
completion/failure signal (`Unit` on success: the async chain ends in
`.return()` and the sync path returns `undefined`). -/
structure RunTrace (F ε : Type) where
  syncMode : Bool
  invoked : List F
  result : Except (RunError ε) Unit
deriving DecidableEq

/-- The shared iteration of both dispatch loops (the `for..of` loop and
`Promise.each`): in list order, unwrap each entry to its callback and run
it; the first failure stops the iteration and is returned, otherwise the
loop completes with `Unit`.  The first component records which callbacks
were actually invoked. -/
def runList {F ε : Type} (exec : F → Except ε Unit) :
    List (HookEntry F) → List F × Except ε Unit
  | [] => ([], Except.ok ())
  | e :: rest =>
    match exec (unwrapEntry e) with
    | Except.error err => ([unwrapEntry e], Except.error err)
    | Except.ok _ =>
      ((unwrapEntry e) :: (runList exec rest).1, (runList exec rest).2)

/-- The list resolved for a string hook type: local entries, then —
`if (this.sequelize)` — the entries of the parent appended after them. -/
def effectiveHooks {F : Type} (host : Host F) (t : String) :
    List (HookEntry F) :=
  getHooks host.hooks t ++
    (match host.parentHooks with
     | some p => getHooks p t
     | none => [])

/-- `runHooks(hooks, ...hookArgs)`.  `exec host f hookArgs` stands for
`f.apply(this, hookArgs)` applied to the unwrapped callback `f` with the
host as receiver; its `Except` value is the success/failure signal of
the hook. -/
def runHooks {F α ε : Type} (host : Host F) (arg : RunArg F)
    (hookArgs : List α) (exec : Host F → F → List α → Except ε Unit) :
    RunTrace F ε :=
  match arg with
  | .noArg => ⟨false, [], Except.error RunError.invalidArgument⟩
  | .typ t =>
    -- the empty string is falsy, so it also hits `if (!hooks) throw`
    if t = "" then ⟨false, [], Except.error RunError.invalidArgument⟩
    else
      let r := runList (fun f => exec host f hookArgs) (effectiveHooks host t)
      ⟨isSyncType t, r.1, r.2.mapError RunError.hookFail⟩
  | .list l =>
    let r := runList (fun f => exec host f hookArgs) l
    ⟨false, r.1, r.2.mapError RunError.hookFail⟩
  | .single e =>
    let r := runList (fun f => exec host f hookArgs) [e]
    ⟨false, r.1, r.2.mapError RunError.hookFail⟩

/-- One value of the `_setupHooks` configuration object: a single
callback or an array of callbacks. -/
inductive HookConfig (F : Type) where
  | one (f : F)
  | many (fs : List F)

/-- `if (!Array.isArray(hooksArray)) hooksArray = [hooksArray]`. -/
def HookConfig.toFns {F : Type} : HookConfig F → List F
  | .one f => [f]
  | .many fs => fs

/-- `hooksArray.forEach(hookFn => this.addHook(hookName, hookFn))`; a
throw from `addHook` aborts the remaining registrations. -/
def addHookList {F : Type} (h : Host F) (n : String) :
    List F → Host F × Option HookError
  | [] => (h, none)
  | f :: fs =>
    match addHook h n none f with
    | (h', none) => addHookList h' n fs
    | (h', some e) => (h', some e)

/-- The `_.map` loop of `_setupHooks` over the configuration entries. -/
def setupGo {F : Type} : List (String × HookConfig F) → Host F →
    Host F × Option HookError
  | [], h => (h, none)
  | (n, cfg) :: rest, h =>
    match addHookList h n cfg.toFns with
    | (h', none) => setupGo rest h'
    | (h', some e) => (h', some e)

/-- `_setupHooks(hooks = {})`: reset `this.options.hooks` to `{}` and
re-register every configured callback through `addHook`. -/
def setupHooks {F : Type} (host : Host F)
    (config : List (String × HookConfig F)) : Host F × Option HookError :=
  setupGo config { host with hooks := [] }

/-! ### Store lemmas -/

theorem storeLookup_storeSet {F : Type} (s : HookStore F) (t : String)
    (l : List (HookEntry F)) (t' : String) :
    storeLookup (storeSet s t l) t' =
      if t' = t then some l else storeLookup s t' := by
  induction s with
  | nil =>
    by_cases h : t' = t
    · simp [storeSet, storeLookup, h]
    · have h2 : ¬t = t' := fun hc => h hc.symm
      simp [storeSet, storeLookup, h, h2]
  | cons p rest ih =>
    by_cases hk : p.1 = t
    · by_cases h : t' = t
      · simp [storeSet, storeLookup, hk, h]
      · have h2 : ¬t = t' := fun hc => h hc.symm
        simp [storeSet, storeLookup, hk, h, h2]
    · by_cases h2 : p.1 = t'
      · have h : ¬t' = t := fun hc => hk (h2.trans hc)
        simp [storeSet, storeLookup, hk, h2, h]
      · simp [storeSet, storeLookup, hk, h2, ih]

theorem storeGet_storeSet {F : Type} (s : HookStore F) (t : String)
    (l : List (HookEntry F)) (t' : String) :
    storeGet (storeSet s t l) t' =
      if t' = t then l else storeGet s t' := by
  unfold storeGet
  rw [storeLookup_storeSet]
  by_cases h : t' = t <;> simp [h]

theorem storeGet_of_storeLookup {F : Type} {s : HookStore F} {t : String}
    {l : List (HookEntry F)} (h : storeLookup s t = some l) :
    storeGet s t = l := by
  unfold storeGet
  rw [h]
  rfl

theorem storeLookup_isSome_of_get_ne {F : Type} {s : HookStore F}
    {t : String} (h : storeGet s t ≠ []) :
    (storeLookup s t).isSome = true := by
  unfold storeGet at h
  cases hl : storeLookup s t with
  | none => rw [hl] at h; exact absurd rfl h
  | some l => rfl

theorem hasHook_eq {F : Type} (host : Host F) (t : String) :
    hasHook host t = !(storeGet host.hooks t).isEmpty := by
  unfold hasHook storeGet
  cases storeLookup host.hooks t with
  | none => rfl
  | some l => rfl

theorem storeGet_addAll {F : Type} (ts : List String) (e : HookEntry F) :
    ∀ (s : HookStore F) (t : String),
      storeGet (addAll ts e s) t =
        storeGet s t ++ List.replicate (ts.count t) e := by
  induction ts with
  | nil => intro s t; simp [addAll, List.count_nil]
  | cons t0 ts ih =>
    intro s t
    have step : addAll (t0 :: ts) e s =
        addAll ts e (storeSet s t0 (storeGet s t0 ++ [e])) := by
      simp [addAll]
    rw [step, ih, storeGet_storeSet]
    by_cases h : t = t0
    · subst h
      rw [if_pos rfl, List.count_cons_self, List.replicate_succ,
        List.append_assoc]
      rfl
    · rw [if_neg h, List.count_cons_of_ne h]

theorem mem_getProxiedHooks {T : String} {ts : List String}
    (h : getProxiedHooks T = some ts) : T ∈ ts := by
  unfold getProxiedHooks at h
  cases hl : lookupHookType T with
  | none => simp only [hl] at h; exact Option.noConfusion h
  | some d =>
    simp only [hl] at h
    cases hp : d.proxies with
    | none =>
      simp only [hp] at h
      have h3 : [T] = ts := by injection h
      rw [← h3]
      exact List.mem_singleton_self T
    | some ps =>
      simp only [hp] at h
      have h3 : ps ++ [T] = ts := by injection h
      rw [← h3]
      exact List.mem_append_right ps (List.mem_singleton_self T)

theorem filter_replicate_neg {F : Type} {p : HookEntry F → Bool}
    {a : HookEntry F} (h : p a = false) (n : Nat) :
    (List.replicate n a).filter p = [] := by
  induction n with
  | zero => rfl
  | succ n ih => rw [List.replicate_succ, List.filter_cons_of_neg (by simp [h]), ih]

theorem removeAllGo_spec {F : Type} [DecidableEq F] (key : RemoveKey F) :
    ∀ (ts : List String) (s : HookStore F),
      (∀ t ∈ ts, (storeLookup s t).isSome = true) →
      ∃ s', removeAllGo key ts s = (s', none) ∧
        (∀ t, storeGet s' t =
          if t ∈ ts then (storeGet s t).filter (keepEntry key)
          else storeGet s t) ∧
        (∀ t, (storeLookup s' t).isSome = (storeLookup s t).isSome) := by
  intro ts
  induction ts with
  | nil =>
    intro s _
    exact ⟨s, rfl, fun t => by simp, fun t => rfl⟩
  | cons t0 ts ih =>
    intro s hpre
    have h0 : (storeLookup s t0).isSome = true :=
      hpre t0 (List.mem_cons_self t0 ts)
    obtain ⟨l0, hl0⟩ := Option.isSome_iff_exists.mp h0
    have hg0 : storeGet s t0 = l0 := storeGet_of_storeLookup hl0
    set s1 := storeSet s t0 (l0.filter (keepEntry key)) with hs1
    have hstep : removeAllGo key (t0 :: ts) s = removeAllGo key ts s1 := by
      simp [removeAllGo, hl0, hs1]
    have hpre1 : ∀ t ∈ ts, (storeLookup s1 t).isSome = true := by
      intro t ht
      rw [hs1, storeLookup_storeSet]
      by_cases h : t = t0
      · simp [h]
      · rw [if_neg h]
        exact hpre t (List.mem_cons_of_mem t0 ht)
    obtain ⟨s', hrun, hget, hsome⟩ := ih s1 hpre1
    refine ⟨s', by rw [hstep, hrun], ?_, ?_⟩
    · intro t
      have hg1 : storeGet s1 t =
          if t = t0 then l0.filter (keepEntry key) else storeGet s t := by
        rw [hs1, storeGet_storeSet]
      by_cases hmem : t ∈ ts
      · rw [hget t, if_pos hmem, if_pos (List.mem_cons_of_mem t0 hmem), hg1]
        by_cases h : t = t0
        · rw [if_pos h, h, hg0, List.filter_filter]
          simp
        · rw [if_neg h]
      · by_cases h : t = t0
        · rw [hget t, if_neg hmem, hg1, if_pos h,
            if_pos (by rw [h]; exact List.mem_cons_self t0 ts), h, hg0]
        · have : ¬t ∈ t0 :: ts := by
            intro hc
            rcases List.mem_cons.mp hc with hc1 | hc2
            · exact h hc1
            · exact hmem hc2
          rw [hget t, if_neg hmem, hg1, if_neg h, if_neg this]
    · intro t
      rw [hsome t, hs1, storeLookup_storeSet]
      by_cases h : t = t0
      · rw [if_pos h, h, hl0]
        rfl
      · rw [if_neg h]

/-! ### Dispatch-loop lemmas -/

theorem runList_ok {F ε : Type} (exec : F → Except ε Unit) :
    ∀ (l : List (HookEntry F)),
      (∀ e ∈ l, exec (unwrapEntry e) = Except.ok ()) →
      runList exec l = (l.map unwrapEntry, Except.ok ()) := by
  intro l
  induction l with
  | nil => intro _; rfl
  | cons e rest ih =>
    intro h
    have he : exec (unwrapEntry e) = Except.ok () :=
      h e (List.mem_cons_self e rest)
    have hr := ih (fun x hx => h x (List.mem_cons_of_mem e hx))
    simp [runList, he, hr]

/-- A concrete always-succeeding hook semantics used by the witnesses. -/
def execOkNat (_h : Host Nat) (_f : Nat) (_args : List Nat) :
    Except String Unit :=
  Except.ok ()

/-- A concrete hook semantics where callback `2` fails, used by the
witnesses. -/
def execDemoNat (_h : Host Nat) (f : Nat) (_args : List Nat) :
    Except String Unit :=
  if f = 2 then Except.error "boom" else Except.ok ()

theorem runList_failfast {F ε : Type} (exec : F → Except ε Unit) :
    ∀ (l1 : List (HookEntry F)) (e : HookEntry F) (l2 : List (HookEntry F))
      (err : ε),
      (∀ x ∈ l1, exec (unwrapEntry x) = Except.ok ()) →
      exec (unwrapEntry e) = Except.error err →
      runList exec (l1 ++ e :: l2) =
        ((l1 ++ [e]).map unwrapEntry, Except.error err) := by
  intro l1
  induction l1 with
  | nil =>
    intro e l2 err _ he
    simp [runList, he]
  | cons x l1 ih =>
    intro e l2 err h1 he
    have hx : exec (unwrapEntry x) = Except.ok () :=
      h1 x (List.mem_cons_self x l1)
    have hr := ih e l2 err (fun y hy => h1 y (List.mem_cons_of_mem x hy)) he
    simp [runList, hx, hr]

/-! ### Claim theorems -/

/-- C9: for every host, calling `runHooks` with no hooks argument at all
fails with the `InvalidArgument` error (`runHooks requires at least 1
argument`) and no hook is looked up or invoked (the invocation trace is
empty). -/
theorem runHooks_noArg_invalidArgument {F α ε : Type} (host : Host F)
    (hookArgs : List α) (exec : Host F → F → List α → Except ε Unit) :
    runHooks host RunArg.noArg hookArgs exec =
      ⟨false, [], Except.error RunError.invalidArgument⟩ :=
  rfl

/-- C5: for every host-restricted (`noModel`) hook type and every host
with a non-null parent (`this.sequelize`), `addHook` fails with the
restriction error naming the hook type and returns the host with its
hook store untouched. -/
theorem addHook_restriction {F : Type} (host : Host F) (T : String)
    (d : HookDescriptor) (name : Option String) (fn : F) (p : HookStore F)
    (hd : lookupHookType T = some d) (hnm : d.noModel = true)
    (hp : host.parentHooks = some p) :
    addHook host T name fn = (host, some (HookError.restriction T)) := by
  have h1 : isNoModelType T = true := by
    unfold isNoModelType
    simp only [hd, hnm]
  have h2 : host.parentHooks.isSome = true := by rw [hp]; rfl
  simp [addHook, h1, h2]

theorem addHook_restriction_witness :
    addHook (⟨[], some []⟩ : Host Nat) "beforeDefine" none 0 =
      ((⟨[], some []⟩ : Host Nat), some (HookError.restriction "beforeDefine")) :=
  addHook_restriction (⟨[], some []⟩ : Host Nat) "beforeDefine"
    ⟨2, true, true, none⟩ none 0 [] (by decide) (by decide) (by decide)

/-- C1 (amended): for a hook-type name absent from the catalog, dispatch
and removal are not errors — `runHooks` still functions and treats the
type as asynchronous (no synchronous fast path, no alias expansion,
local plus parent entries), and `removeHook` is a no-op when nothing is
registered — but `addHook` does NOT succeed: the alias lookup
`hookTypes[hookType].proxies` throws a `TypeError`, leaving the store
unchanged, instead of appending the callback under the literal type. -/
theorem unknown_hookType_behaviour {F α ε : Type} [DecidableEq F]
    (host : Host F) (T : String) (name : Option String) (fn : F)
    (key : RemoveKey F) (hookArgs : List α)
    (exec : Host F → F → List α → Except ε Unit)
    (hT : lookupHookType T = none) (hne : T ≠ "") :
    addHook host T name fn = (host, some HookError.typeError)
    ∧ (hasHook host T = false → removeHook host T key = (host, none))
    ∧ runHooks host (RunArg.typ T) hookArgs exec =
        ⟨false,
         (runList (fun f => exec host f hookArgs) (effectiveHooks host T)).1,
         (runList (fun f => exec host f hookArgs)
            (effectiveHooks host T)).2.mapError RunError.hookFail⟩ := by
  have hpx : getProxiedHooks T = none := by
    unfold getProxiedHooks
    simp only [hT]
  have hnmT : isNoModelType T = false := by
    unfold isNoModelType
    simp only [hT]
  have hsync : isSyncType T = false := by
    unfold isSyncType
    simp only [hT]
  refine ⟨?_, ?_, ?_⟩
  · simp [addHook, hnmT, hpx]
  · intro hh
    simp [removeHook, hh]
  · simp [runHooks, hne, hsync]

theorem unknown_hookType_counterexample :
    addHook (⟨[], none⟩ : Host Nat) "myCustomHook" none 0 =
      ((⟨[], none⟩ : Host Nat), some HookError.typeError) := by
  decide

theorem unknown_hookType_witness :
    (addHook (⟨[], none⟩ : Host Nat) "newCustomType" none 3 =
      ((⟨[], none⟩ : Host Nat), some HookError.typeError))
    ∧ (hasHook (⟨[], none⟩ : Host Nat) "newCustomType" = false →
        removeHook (⟨[], none⟩ : Host Nat) "newCustomType"
          (RemoveKey.byName "x") = ((⟨[], none⟩ : Host Nat), none))
    ∧ runHooks (⟨[], none⟩ : Host Nat) (RunArg.typ "newCustomType")
        ([] : List Nat) execOkNat =
        ⟨false,
         (runList (fun f => execOkNat (⟨[], none⟩ : Host Nat) f [])
            (effectiveHooks (⟨[], none⟩ : Host Nat) "newCustomType")).1,
         (runList (fun f => execOkNat (⟨[], none⟩ : Host Nat) f [])
            (effectiveHooks (⟨[], none⟩ : Host Nat) "newCustomType")).2.mapError
           RunError.hookFail⟩ :=
  unknown_hookType_behaviour (⟨[], none⟩ : Host Nat) "newCustomType" none 3
    (RemoveKey.byName "x") [] execOkNat (by decide) (by decide)

/-- C2: for a catalog hook type `T` with alias set `{A, B}` (the proxy
types), one `addHook(host, T, fn)` call on a host whose store is empty at
`A`, `B` and `T` makes `hasHook` true for all three types, each list
containing exactly the one bare entry `fn` — the aliases are expanded
physically at registration time. -/
theorem addHook_alias_expansion {F : Type} (host : Host F) (T A B : String)
    (d : HookDescriptor) (fn : F)
    (hd : lookupHookType T = some d) (hpx : d.proxies = some [A, B])
    (hnm : d.noModel = false) (hTA : T ≠ A) (hTB : T ≠ B) (hAB : A ≠ B)
    (hA : storeGet host.hooks A = []) (hB : storeGet host.hooks B = [])
    (hT : storeGet host.hooks T = []) :
    ∃ host', addHook host T none fn = (host', none)
      ∧ hasHook host' A = true ∧ hasHook host' B = true
      ∧ hasHook host' T = true
      ∧ storeGet host'.hooks A = [HookEntry.bare fn]
      ∧ storeGet host'.hooks B = [HookEntry.bare fn]
      ∧ storeGet host'.hooks T = [HookEntry.bare fn] := by
  have hpr : getProxiedHooks T = some [A, B, T] := by
    unfold getProxiedHooks
    simp only [hd, hpx]
    rfl
  have hnmT : isNoModelType T = false := by
    unfold isNoModelType
    simp only [hd, hnm]
  have hcA : List.count A [A, B, T] = 1 := by
    simp [List.count_cons, hAB.symm, hTA.symm]
  have hcB : List.count B [A, B, T] = 1 := by
    simp [List.count_cons, hAB, hTB.symm]
  have hcT : List.count T [A, B, T] = 1 := by
    simp [List.count_cons, hTA, hTB]
  refine ⟨{ host with hooks := addAll [A, B, T] (HookEntry.bare fn) host.hooks },
    ?_, ?_, ?_, ?_, ?_, ?_, ?_⟩
  · simp [addHook, hnmT, hpr, mkEntry]
  · rw [hasHook_eq]
    simp [storeGet_addAll, hcA, hA]
  · rw [hasHook_eq]
    simp [storeGet_addAll, hcB, hB]
  · rw [hasHook_eq]
    simp [storeGet_addAll, hcT, hT]
  · simp [storeGet_addAll, hcA, hA]
  · simp [storeGet_addAll, hcB, hB]
  · simp [storeGet_addAll, hcT, hT]

theorem addHook_alias_expansion_witness :
    ∃ host', addHook (⟨[], none⟩ : Host Nat) "beforeSave" none 7 = (host', none)
      ∧ hasHook host' "beforeUpdate" = true ∧ hasHook host' "beforeCreate" = true
      ∧ hasHook host' "beforeSave" = true
      ∧ storeGet host'.hooks "beforeUpdate" = [HookEntry.bare 7]
      ∧ storeGet host'.hooks "beforeCreate" = [HookEntry.bare 7]
      ∧ storeGet host'.hooks "beforeSave" = [HookEntry.bare 7] :=
  addHook_alias_expansion (⟨[], none⟩ : Host Nat) "beforeSave" "beforeUpdate"
    "beforeCreate" ⟨2, false, false, some ["beforeUpdate", "beforeCreate"]⟩ 7
    (by decide) (by decide) (by decide) (by decide) (by decide) (by decide)
    (by decide) (by decide) (by decide)

/-- C6: registration followed by removal with the same callback is the
identity on emptiness: on a host with no hooks under `T` or any of its
alias-resolved types, `addHook(host, T, fn)` then
`removeHook(host, T, fn)` both succeed and leave `hasHook` false for `T`
and for every alias-resolved type. -/
theorem addHook_removeHook_symmetry {F : Type} [DecidableEq F] (host : Host F)
    (T : String) (ts : List String) (fn : F)
    (hts : getProxiedHooks T = some ts)
    (hres : (isNoModelType T && host.parentHooks.isSome) = false)
    (hempty : ∀ t ∈ ts, storeGet host.hooks t = []) :
    ∃ h1 h2, addHook host T none fn = (h1, none)
      ∧ removeHook h1 T (RemoveKey.byFn fn) = (h2, none)
      ∧ hasHook h2 T = false
      ∧ ∀ t ∈ ts, hasHook h2 t = false := by
  have hmem : T ∈ ts := mem_getProxiedHooks hts
  set h1 : Host F :=
    { host with hooks := addAll ts (HookEntry.bare fn) host.hooks } with hh1
  have hadd : addHook host T none fn = (h1, none) := by
    simp [addHook, hres, hts, mkEntry, hh1]
  have hget1 : ∀ t ∈ ts, storeGet h1.hooks t =
      List.replicate (ts.count t) (HookEntry.bare fn) := by
    intro t ht
    rw [hh1]
    show storeGet (addAll ts (HookEntry.bare fn) host.hooks) t = _
    rw [storeGet_addAll, hempty t ht, List.nil_append]
  have hcount : ∀ t ∈ ts, 0 < ts.count t := fun t ht => List.count_pos_iff.mpr ht
  have hne1 : ∀ t ∈ ts, storeGet h1.hooks t ≠ [] := by
    intro t ht
    rw [hget1 t ht]
    intro hc
    have hlen : ts.count t = 0 := by
      have := congrArg List.length hc
      rw [List.length_replicate] at this
      exact this
    exact Nat.lt_irrefl 0 (hlen ▸ hcount t ht)
  have hhas1 : hasHook h1 T = true := by
    rw [hasHook_eq]
    cases hg : storeGet h1.hooks T with
    | nil => exact absurd hg (hne1 T hmem)
    | cons a l => rfl
  have hpre : ∀ t ∈ ts, (storeLookup h1.hooks t).isSome = true := fun t ht =>
    storeLookup_isSome_of_get_ne (hne1 t ht)
  obtain ⟨s', hrun, hget', _⟩ := removeAllGo_spec (RemoveKey.byFn fn) ts h1.hooks hpre
  have hkeep : keepEntry (RemoveKey.byFn fn) (HookEntry.bare fn) = false := by
    simp [keepEntry]
  have hrem : removeHook h1 T (RemoveKey.byFn fn) =
      ({ h1 with hooks := s' }, none) := by
    simp [removeHook, hhas1, hts, hrun]
  refine ⟨h1, { h1 with hooks := s' }, hadd, hrem, ?_, ?_⟩
  · rw [hasHook_eq]
    show (!(storeGet s' T).isEmpty) = false
    rw [hget' T, if_pos hmem, hget1 T hmem, filter_replicate_neg hkeep]
    rfl
  · intro t ht
    rw [hasHook_eq]
    show (!(storeGet s' t).isEmpty) = false
    rw [hget' t, if_pos ht, hget1 t ht, filter_replicate_neg hkeep]
    rfl

theorem addHook_removeHook_symmetry_witness :
    ∃ h1 h2, addHook (⟨[], none⟩ : Host Nat) "beforeSave" none 3 = (h1, none)
      ∧ removeHook h1 "beforeSave" (RemoveKey.byFn 3) = (h2, none)
      ∧ hasHook h2 "beforeSave" = false
      ∧ ∀ t ∈ ["beforeUpdate", "beforeCreate", "beforeSave"],
          hasHook h2 t = false :=
  addHook_removeHook_symmetry (⟨[], none⟩ : Host Nat) "beforeSave"
    ["beforeUpdate", "beforeCreate", "beforeSave"] 3 (by decide) (by decide)
    (by decide)

/-- C7: `removeHook` with a string key filters out only `{name, fn}`
entries whose name equals the key, and with a callback key only bare
entries identical to the key; entries of the non-matching kind are always
kept (`keepEntry` returns true on them), each surviving list is exactly
the order-preserving `filter` of the old one, and lists of types outside
the alias-resolved set are untouched. -/
theorem removeHook_kind_matching {F : Type} [DecidableEq F] (host : Host F)
    (T : String) (ts : List String) (key : RemoveKey F)
    (hts : getProxiedHooks T = some ts)
    (hhas : hasHook host T = true)
    (hdef : ∀ t ∈ ts, (storeLookup host.hooks t).isSome = true) :
    (∃ h', removeHook host T key = (h', none)
      ∧ (∀ t ∈ ts, storeGet h'.hooks t =
          (storeGet host.hooks t).filter (keepEntry key))
      ∧ (∀ t, t ∉ ts → storeGet h'.hooks t = storeGet host.hooks t))
    ∧ (∀ (n : String) (fn : F),
        keepEntry (RemoveKey.byName n) (HookEntry.bare fn) = true)
    ∧ (∀ (k : F) (m : String) (fn : F),
        keepEntry (RemoveKey.byFn k) (HookEntry.named m fn) = true)
    ∧ (∀ (n m : String) (fn : F),
        keepEntry (RemoveKey.byName n) (HookEntry.named m fn) = !decide (m = n))
    ∧ (∀ (k fn : F),
        keepEntry (RemoveKey.byFn k) (HookEntry.bare fn) = !decide (fn = k)) := by
  obtain ⟨s', hrun, hget', _⟩ := removeAllGo_spec key ts host.hooks hdef
  refine ⟨⟨{ host with hooks := s' }, ?_, ?_, ?_⟩,
    fun n fn => rfl, fun k m fn => rfl, fun n m fn => rfl, fun k fn => rfl⟩
  · simp [removeHook, hhas, hts, hrun]
  · intro t ht
    show storeGet s' t = _
    rw [hget' t, if_pos ht]
  · intro t ht
    show storeGet s' t = _
    rw [hget' t, if_neg ht]

theorem removeHook_kind_matching_witness :
    ((∃ h', removeHook (⟨[("beforeCreate", [HookEntry.bare 5])], none⟩ : Host Nat)
        "beforeCreate" (RemoveKey.byName "someName") = (h', none)
      ∧ (∀ t ∈ ["beforeCreate"], storeGet h'.hooks t =
          (storeGet (⟨[("beforeCreate", [HookEntry.bare 5])], none⟩ : Host Nat).hooks
            t).filter (keepEntry (RemoveKey.byName "someName")))
      ∧ (∀ t, t ∉ ["beforeCreate"] → storeGet h'.hooks t =
          storeGet (⟨[("beforeCreate", [HookEntry.bare 5])], none⟩ : Host Nat).hooks t))
    ∧ (∀ (n : String) (fn : Nat),
        keepEntry (RemoveKey.byName n) (HookEntry.bare fn) = true)
    ∧ (∀ (k : Nat) (m : String) (fn : Nat),
        keepEntry (RemoveKey.byFn k) (HookEntry.named m fn) = true)
    ∧ (∀ (n m : String) (fn : Nat),
        keepEntry (RemoveKey.byName n) (HookEntry.named m fn) = !decide (m = n))
    ∧ (∀ (k fn : Nat),
        keepEntry (RemoveKey.byFn k) (HookEntry.bare fn) = !decide (fn = k)))
    ∧ removeHook (⟨[("beforeCreate", [HookEntry.bare 5])], none⟩ : Host Nat)
        "beforeCreate" (RemoveKey.byName "someName") =
        ((⟨[("beforeCreate", [HookEntry.bare 5])], none⟩ : Host Nat), none) :=
  ⟨removeHook_kind_matching (⟨[("beforeCreate", [HookEntry.bare 5])], none⟩ : Host Nat)
    "beforeCreate" ["beforeCreate"] (RemoveKey.byName "someName") (by decide)
    (by decide) (by decide), by decide⟩

/-- C3: asynchronous-mode dispatch over a resolved hook list is
sequential and fail-fast: when every hook before position `i` succeeds
and the hook at `i` fails, exactly the hooks up to and including `i` are
invoked (none after it) and the overall `runHooks` result is that
failure; when every hook succeeds, `runHooks` resolves with no
meaningful value (`Unit`). -/
theorem runHooks_async_failfast {F α ε : Type} (host : Host F)
    (l1 l2 : List (HookEntry F)) (e : HookEntry F) (err : ε)
    (hookArgs : List α) (exec : Host F → F → List α → Except ε Unit)
    (h1 : ∀ x ∈ l1, exec host (unwrapEntry x) hookArgs = Except.ok ())
    (he : exec host (unwrapEntry e) hookArgs = Except.error err) :
    runHooks host (RunArg.list (l1 ++ e :: l2)) hookArgs exec =
      ⟨false, (l1 ++ [e]).map unwrapEntry,
       Except.error (RunError.hookFail err)⟩
    ∧ ∀ l : List (HookEntry F),
        (∀ x ∈ l, exec host (unwrapEntry x) hookArgs = Except.ok ()) →
        runHooks host (RunArg.list l) hookArgs exec =
          ⟨false, l.map unwrapEntry, Except.ok ()⟩ := by
  constructor
  · have hr := runList_failfast (fun f => exec host f hookArgs) l1 e l2 err h1 he
    simp [runHooks, hr, Except.mapError]
  · intro l hl
    have hr := runList_ok (fun f => exec host f hookArgs) l hl
    simp [runHooks, hr, Except.mapError]

theorem runHooks_async_failfast_witness :
    (runHooks (⟨[], none⟩ : Host Nat)
      (RunArg.list ([HookEntry.bare 1] ++ HookEntry.bare 2 :: [HookEntry.bare 3]))
      [] execDemoNat =
      ⟨false, ([HookEntry.bare 1] ++ [HookEntry.bare 2]).map unwrapEntry,
       Except.error (RunError.hookFail "boom")⟩
    ∧ ∀ l : List (HookEntry Nat),
        (∀ x ∈ l, execDemoNat (⟨[], none⟩ : Host Nat) (unwrapEntry x) [] =
          Except.ok ()) →
        runHooks (⟨[], none⟩ : Host Nat) (RunArg.list l) [] execDemoNat =
          ⟨false, l.map unwrapEntry, Except.ok ()⟩)
    ∧ runHooks (⟨[], none⟩ : Host Nat)
        (RunArg.list [HookEntry.bare 1, HookEntry.bare 2, HookEntry.bare 3])
        [] execDemoNat =
        ⟨false, [1, 2], Except.error (RunError.hookFail "boom")⟩ :=
  ⟨runHooks_async_failfast (⟨[], none⟩ : Host Nat) [HookEntry.bare 1]
    [HookEntry.bare 3] (HookEntry.bare 2) "boom" [] execDemoNat
    (by decide) (by decide), by decide⟩

/-- C4: for a string hook type, the effective list is the host's local
entries followed by the parent's entries (when a parent exists), and a
host with no local hooks whose parent has two hooks for the type runs
exactly those two parent hooks in the parent's registration order. -/
theorem runHooks_inheritance {F α ε : Type} (host : Host F)
    (p : HookStore F) (T : String) (e1 e2 : HookEntry F)
    (hookArgs : List α) (exec : Host F → F → List α → Except ε Unit)
    (hp : host.parentHooks = some p) (hne : T ≠ "") :
    effectiveHooks host T = getHooks host.hooks T ++ getHooks p T
    ∧ runHooks host (RunArg.typ T) hookArgs exec =
        ⟨isSyncType T,
         (runList (fun f => exec host f hookArgs)
            (getHooks host.hooks T ++ getHooks p T)).1,
         (runList (fun f => exec host f hookArgs)
            (getHooks host.hooks T ++ getHooks p T)).2.mapError
           RunError.hookFail⟩
    ∧ (getHooks host.hooks T = [] → getHooks p T = [e1, e2] →
        exec host (unwrapEntry e1) hookArgs = Except.ok () →
        exec host (unwrapEntry e2) hookArgs = Except.ok () →
        runHooks host (RunArg.typ T) hookArgs exec =
          ⟨isSyncType T, [unwrapEntry e1, unwrapEntry e2], Except.ok ()⟩) := by
  have heff : effectiveHooks host T = getHooks host.hooks T ++ getHooks p T := by
    unfold effectiveHooks
    rw [hp]
  refine ⟨heff, ?_, ?_⟩
  · simp [runHooks, hne, heff]
  · intro hloc hpar he1 he2
    have hl : effectiveHooks host T = [e1, e2] := by
      rw [heff, hloc, hpar, List.nil_append]
    have hok : ∀ x ∈ [e1, e2],
        (fun f => exec host f hookArgs) (unwrapEntry x) = Except.ok () := by
      intro x hx
      rcases List.mem_cons.mp hx with h | h
      · rw [h]; exact he1
      · rw [List.mem_singleton.mp h]; exact he2
    have hr := runList_ok (fun f => exec host f hookArgs) [e1, e2] hok
    simp [runHooks, hne, hl, hr, Except.mapError]

theorem runHooks_inheritance_witness :
    (effectiveHooks
        (⟨[], some [("beforeCreate", [HookEntry.bare 4, HookEntry.bare 9])]⟩ : Host Nat)
        "beforeCreate" =
      getHooks ([] : HookStore Nat) "beforeCreate" ++
        getHooks [("beforeCreate", [HookEntry.bare 4, HookEntry.bare 9])] "beforeCreate"
    ∧ runHooks
        (⟨[], some [("beforeCreate", [HookEntry.bare 4, HookEntry.bare 9])]⟩ : Host Nat)
        (RunArg.typ "beforeCreate") ([] : List Nat) execOkNat =
        ⟨isSyncType "beforeCreate",
         (runList (fun f => execOkNat
            (⟨[], some [("beforeCreate", [HookEntry.bare 4, HookEntry.bare 9])]⟩ : Host Nat)
            f [])
            (getHooks ([] : HookStore Nat) "beforeCreate" ++
              getHooks [("beforeCreate", [HookEntry.bare 4, HookEntry.bare 9])]
                "beforeCreate")).1,
         (runList (fun f => execOkNat
            (⟨[], some [("beforeCreate", [HookEntry.bare 4, HookEntry.bare 9])]⟩ : Host Nat)
            f [])
            (getHooks ([] : HookStore Nat) "beforeCreate" ++
              getHooks [("beforeCreate", [HookEntry.bare 4, HookEntry.bare 9])]
                "beforeCreate")).2.mapError RunError.hookFail⟩
    ∧ (getHooks ([] : HookStore Nat) "beforeCreate" = [] →
        getHooks [("beforeCreate", [HookEntry.bare 4, HookEntry.bare 9])]
          "beforeCreate" = [HookEntry.bare 4, HookEntry.bare 9] →
        execOkNat
          (⟨[], some [("beforeCreate", [HookEntry.bare 4, HookEntry.bare 9])]⟩ : Host Nat)
          (unwrapEntry (HookEntry.bare 4)) [] = Except.ok () →
        execOkNat
          (⟨[], some [("beforeCreate", [HookEntry.bare 4, HookEntry.bare 9])]⟩ : Host Nat)
          (unwrapEntry (HookEntry.bare 9)) [] = Except.ok () →
        runHooks
          (⟨[], some [("beforeCreate", [HookEntry.bare 4, HookEntry.bare 9])]⟩ : Host Nat)
          (RunArg.typ "beforeCreate") ([] : List Nat) execOkNat =
          ⟨isSyncType "beforeCreate",
           [unwrapEntry (HookEntry.bare 4), unwrapEntry (HookEntry.bare 9)],
           Except.ok ()⟩))
    ∧ runHooks
        (⟨[], some [("beforeCreate", [HookEntry.bare 4, HookEntry.bare 9])]⟩ : Host Nat)
        (RunArg.typ "beforeCreate") ([] : List Nat) execOkNat =
        ⟨false, [4, 9], Except.ok ()⟩ :=
  ⟨runHooks_inheritance
    (⟨[], some [("beforeCreate", [HookEntry.bare 4, HookEntry.bare 9])]⟩ : Host Nat)
    [("beforeCreate", [HookEntry.bare 4, HookEntry.bare 9])] "beforeCreate"
    (HookEntry.bare 4) (HookEntry.bare 9) [] execOkNat (by decide) (by decide),
   by decide⟩

/-- C8: for a hook type whose catalog descriptor is marked `sync`,
`runHooks` takes the synchronous fast path: the resolved list is
iterated in order, each entry is unwrapped and invoked immediately,
return values are not captured (success carries `Unit`), and a failure
of hook `i` propagates to the caller with no hook after `i` running. -/
theorem runHooks_sync_mode {F α ε : Type} (host : Host F) (T : String)
    (d : HookDescriptor) (hookArgs : List α)
    (exec : Host F → F → List α → Except ε Unit)
    (hd : lookupHookType T = some d) (hs : d.sync = true) (hne : T ≠ "") :
    (runHooks host (RunArg.typ T) hookArgs exec).syncMode = true
    ∧ ((∀ x ∈ effectiveHooks host T,
          exec host (unwrapEntry x) hookArgs = Except.ok ()) →
        runHooks host (RunArg.typ T) hookArgs exec =
          ⟨true, (effectiveHooks host T).map unwrapEntry, Except.ok ()⟩)
    ∧ (∀ (l1 l2 : List (HookEntry F)) (e : HookEntry F) (err : ε),
        effectiveHooks host T = l1 ++ e :: l2 →
        (∀ x ∈ l1, exec host (unwrapEntry x) hookArgs = Except.ok ()) →
        exec host (unwrapEntry e) hookArgs = Except.error err →
        runHooks host (RunArg.typ T) hookArgs exec =
          ⟨true, (l1 ++ [e]).map unwrapEntry,
           Except.error (RunError.hookFail err)⟩) := by
  have hsync : isSyncType T = true := by
    unfold isSyncType
    simp only [hd, hs]
  refine ⟨?_, ?_, ?_⟩
  · simp [runHooks, hne, hsync]
  · intro hall
    have hr := runList_ok (fun f => exec host f hookArgs)
      (effectiveHooks host T) hall
    simp [runHooks, hne, hsync, hr, Except.mapError]
  · intro l1 l2 e err hsplit hok hfail
    have hr := runList_failfast (fun f => exec host f hookArgs) l1 e l2 err
      hok hfail
    simp [runHooks, hne, hsync, hsplit, hr, Except.mapError]

theorem runHooks_sync_mode_witness :
    ((runHooks (⟨[("beforeDefine", [HookEntry.bare 1, HookEntry.bare 3])], none⟩ : Host Nat)
        (RunArg.typ "beforeDefine") ([] : List Nat) execDemoNat).syncMode = true
    ∧ ((∀ x ∈ effectiveHooks
          (⟨[("beforeDefine", [HookEntry.bare 1, HookEntry.bare 3])], none⟩ : Host Nat)
          "beforeDefine",
          execDemoNat
            (⟨[("beforeDefine", [HookEntry.bare 1, HookEntry.bare 3])], none⟩ : Host Nat)
            (unwrapEntry x) [] = Except.ok ()) →
        runHooks (⟨[("beforeDefine", [HookEntry.bare 1, HookEntry.bare 3])], none⟩ : Host Nat)
          (RunArg.typ "beforeDefine") ([] : List Nat) execDemoNat =
          ⟨true,
           (effectiveHooks
             (⟨[("beforeDefine", [HookEntry.bare 1, HookEntry.bare 3])], none⟩ : Host Nat)
             "beforeDefine").map unwrapEntry, Except.ok ()⟩)
    ∧ (∀ (l1 l2 : List (HookEntry Nat)) (e : HookEntry Nat) (err : String),
        effectiveHooks
          (⟨[("beforeDefine", [HookEntry.bare 1, HookEntry.bare 3])], none⟩ : Host Nat)
          "beforeDefine" = l1 ++ e :: l2 →
        (∀ x ∈ l1, execDemoNat
          (⟨[("beforeDefine", [HookEntry.bare 1, HookEntry.bare 3])], none⟩ : Host Nat)
          (unwrapEntry x) [] = Except.ok ()) →
        execDemoNat
          (⟨[("beforeDefine", [HookEntry.bare 1, HookEntry.bare 3])], none⟩ : Host Nat)
          (unwrapEntry e) [] = Except.error err →
        runHooks (⟨[("beforeDefine", [HookEntry.bare 1, HookEntry.bare 3])], none⟩ : Host Nat)
          (RunArg.typ "beforeDefine") ([] : List Nat) execDemoNat =
          ⟨true, (l1 ++ [e]).map unwrapEntry,
           Except.error (RunError.hookFail err)⟩))
    ∧ runHooks (⟨[("beforeDefine", [HookEntry.bare 1, HookEntry.bare 3])], none⟩ : Host Nat)
        (RunArg.typ "beforeDefine") ([] : List Nat) execDemoNat =
        ⟨true, [1, 3], Except.ok ()⟩ :=
  ⟨runHooks_sync_mode
    (⟨[("beforeDefine", [HookEntry.bare 1, HookEntry.bare 3])], none⟩ : Host Nat)
    "beforeDefine" ⟨2, true, true, none⟩ [] execDemoNat (by decide) (by decide)
    (by decide), by decide⟩

/-- C10: `_setupHooks(config)` first resets the host's hook store to
empty — its result never depends on what was registered before — and
then registers the configured callbacks through `addHook` in sequence,
so the resulting store holds exactly the hooks derived from the
configuration, alias expansion included. -/
theorem setupHooks_resets_then_registers {F : Type} (s1 s2 : HookStore F)
    (pp : Option (HookStore F)) (config : List (String × HookConfig F))
    (host : Host F) (f : F) :
    setupHooks (⟨s1, pp⟩ : Host F) config = setupHooks (⟨s2, pp⟩ : Host F) config
    ∧ setupHooks host ([] : List (String × HookConfig F)) =
        ({ host with hooks := [] }, none)
    ∧ ∃ h', setupHooks host [("beforeSave", HookConfig.one f)] = (h', none)
        ∧ h'.parentHooks = host.parentHooks
        ∧ storeGet h'.hooks "beforeSave" = [HookEntry.bare f]
        ∧ storeGet h'.hooks "beforeUpdate" = [HookEntry.bare f]
        ∧ storeGet h'.hooks "beforeCreate" = [HookEntry.bare f]
        ∧ ∀ t, t ∉ ["beforeUpdate", "beforeCreate", "beforeSave"] →
            storeGet h'.hooks t = [] := by
  have e1 : isNoModelType "beforeSave" = false := by decide
  have e2 : getProxiedHooks "beforeSave" =
      some ["beforeUpdate", "beforeCreate", "beforeSave"] := by decide
  have hstep : setupHooks host [("beforeSave", HookConfig.one f)] =
      (⟨addAll ["beforeUpdate", "beforeCreate", "beforeSave"]
        (HookEntry.bare f) [], host.parentHooks⟩, none) := by
    simp [setupHooks, setupGo, addHookList, addHook, HookConfig.toFns,
      e1, e2, mkEntry]
  have hcS : List.count "beforeSave"
      ["beforeUpdate", "beforeCreate", "beforeSave"] = 1 := by decide
  have hcU : List.count "beforeUpdate"
      ["beforeUpdate", "beforeCreate", "beforeSave"] = 1 := by decide
  have hcC : List.count "beforeCreate"
      ["beforeUpdate", "beforeCreate", "beforeSave"] = 1 := by decide
  refine ⟨rfl, rfl,
    ⟨addAll ["beforeUpdate", "beforeCreate", "beforeSave"]
      (HookEntry.bare f) [], host.parentHooks⟩,
    hstep, rfl, ?_, ?_, ?_, ?_⟩
  · show storeGet (addAll _ _ _) _ = _
    rw [storeGet_addAll, hcS]
    rfl
  · show storeGet (addAll _ _ _) _ = _
    rw [storeGet_addAll, hcU]
    rfl
  · show storeGet (addAll _ _ _) _ = _
    rw [storeGet_addAll, hcC]
    rfl
  · intro t ht
    show storeGet (addAll _ _ _) _ = _
    rw [storeGet_addAll, List.count_eq_zero.mpr ht]
    rfl
